import Mathlib

/-!
Verification of the blusb layout parser and encoder (src/src/layout.c).

The file shallowly embeds `bl_parse_layout_file`, `bl_layout_convert` and
`bl_layout_write` from layout.c.  The device constants `NUMROWS`, `NUMCOLS`
and `NUMLAYERS_MAX` come from headers that are not part of the sources, so
they appear as parameters `R`, `C` (and `NLMAX`); the spec fixes concrete
values only in its scenario (NUM_ROWS = 2, NUM_COLS = 3).

Machine integers are modelled as `Nat` with explicit `% 65536` at the points
where the C code stores into a `uint16_t`, and `% 256` when a 16-bit word is
split into bytes.  Uninitialised memory (from `malloc`) is modelled as
`Option Nat` with `none` for bytes/words that are never written.  The open
`FILE` handle is modelled by a boolean `closed` carried on every exit path
of the parser: `true` exactly on the paths where the C code calls
`fclose(f)` before returning.

Matrix stores `layout->matrix[layer][row][col] = v` are logged as entries
`((layer, row, col), v)` prepended to a write log, so that claims about the
indices used by the parser can be stated directly; the most recent write for
a triple is the cell's value.
-/

/-- The two lexer states of the parser loop (`BL_STATE_DIGIT`,
`BL_STATE_WHITESPACE` in layout.c). -/
inductive LexState where
  | digit
  | ws
deriving DecidableEq, Repr

/-- The local state of the parsing loop of `bl_parse_layout_file`:
the counters `layer`, `row`, `col`, the lexer state, the accumulation
buffer `parse_buffer` (its characters, capacity 20 including the NUL),
and the log of matrix stores performed so far (most recent first). -/
structure LoopSt where
  layer : Nat
  row : Nat
  col : Nat
  lex : LexState
  buf : List Char
  writes : List ((Nat × Nat × Nat) × Nat)
deriving DecidableEq, Repr

/-- The error exits of `bl_parse_layout_file` (each prints a message and
returns NULL in the C code). -/
inductive ParseError where
  /-- Error "ran out of buffer space for parsing" (layout.c line 97). -/
  | bufferOverflow
  /-- Error "Invalid number of keys in row" (layout.c line 121). -/
  | malformedRow
  /-- Error "Invalid number of rows in layer" (layout.c line 126). -/
  | malformedLayer
  /-- Error "Unexpected character encountered while parsing digits" (line 134). -/
  | unexpectedChar
  /-- Error "Invalid layout file, not enough key entries" (line 160). -/
  | incompleteLayout
deriving DecidableEq, Repr

/-- The result of a successful parse: the `bl_layout_t` struct, given by its
`nlayers` field and the log of all matrix stores (most recent first). -/
structure Layout where
  nlayers : Nat
  writes : List ((Nat × Nat × Nat) × Nat)
deriving DecidableEq, Repr

/-- The value of cell `(i, j, k)` of a layout: the most recent store to
`matrix[i][j][k]`, or `none` if that cell was never written (uninitialised
memory in the C code). -/
def Layout.cell? (l : Layout) (i j k : Nat) : Option Nat :=
  (l.writes.find? (fun w => w.1 == (i, j, k))).map (fun w => w.2)

/-- Outcome of `bl_parse_layout_file` on a given character stream.
`closed` records whether `fclose(f)` was executed on that exit path.
`diverge` marks the one control path on which the C loop never terminates:
in the whitespace state on a character that is neither whitespace nor a
digit, the loop body prints a message but neither consumes the character
nor changes any state (layout.c lines 146-148), so `feof` never becomes
true and the loop repeats forever. -/
inductive POutcome where
  | ok (l : Layout) (closed : Bool)
  | err (e : ParseError) (closed : Bool)
  | diverge
deriving DecidableEq, Repr

/-- Whether the parse returned a layout. -/
def POutcome.isOk : POutcome → Bool
  | .ok _ _ => true
  | _ => false

/-- `atoi` on the accumulation buffer: the buffer only ever holds decimal
digits, so its value is the usual base-10 reading. -/
def bufVal (buf : List Char) : Nat :=
  buf.foldl (fun a c => a * 10 + (c.toNat - 48)) 0

/-- One iteration of the loop body in the `BL_STATE_DIGIT` state
(layout.c lines 94-137), for current character `c`.  Returns the updated
state (the loop then reads the next character) or the error exit taken.
The stores into `matrix` go through a `uint16_t`, hence `% 65536`. -/
def digitCase (R C : Nat) (c : Char) (st : LoopSt) : Except ParseError LoopSt :=
  if c.isDigit then
    -- strlen(parse_buffer) >= sizeof(parse_buffer)-1, with capacity 20
    if 19 ≤ st.buf.length then .error .bufferOverflow
    else .ok { st with buf := st.buf ++ [c] }
  else if c = ',' then
    let st' := { st with
      writes := ((st.layer, st.row, st.col), bufVal st.buf % 65536) :: st.writes,
      buf := [], lex := .ws }
    if st'.col = C - 1 then .ok { st' with col := 0, row := st'.row + 1 }
    else .ok { st' with col := st'.col + 1 }
  else if c = '\n' ∨ c = '\r' then
    let st' := { st with
      writes := ((st.layer, st.row, st.col), bufVal st.buf % 65536) :: st.writes,
      buf := [], lex := .ws }
    if st'.col < C - 1 then .error .malformedRow
    else if st'.row < R - 1 then .error .malformedLayer
    else .ok { st' with layer := st'.layer + 1, col := 0, row := 0 }
  else .error .unexpectedChar

/-- The code after the loop (layout.c lines 151-168): commit a pending
buffer as a final cell, set `nlayers := layer`, and run the trailing
incompleteness check.  Both exits of this epilogue call `fclose`. -/
def parseEpilogue (R C : Nat) (st : LoopSt) : POutcome :=
  let st' :=
    if 0 < st.buf.length then
      { st with
        writes := ((st.layer, st.row, st.col), bufVal st.buf % 65536) :: st.writes }
    else st
  if (0 < st'.row ∧ st'.row < R - 1) ∨ (0 < st'.col ∧ st'.col < C - 1) then
    .err .incompleteLayout true
  else
    .ok { nlayers := st'.layer, writes := st'.writes } true

/-- The `while (!feof(f))` loop of `bl_parse_layout_file`, by recursion on
the remaining input.  In the whitespace state, a digit is not consumed: the
C code switches to `BL_STATE_DIGIT` and re-runs the body on the same
character, whose digit branch then appends it to the buffer; here that
re-run is the inlined `digitCase` call on the unconsumed character.  In the
whitespace state any other (non-whitespace, non-digit) character makes the
C loop repeat forever without consuming anything, recorded as `.diverge`
(the fuel-indexed model `runF` below proves this divergence literally). -/
def parseLoop (R C : Nat) : List Char → LoopSt → POutcome
  | [], st => parseEpilogue R C st
  | c :: rest, st =>
    match st.lex with
    | .digit =>
      match digitCase R C c st with
      | .error e => .err e false
      | .ok st' => parseLoop R C rest st'
    | .ws =>
      if c = '\n' ∨ c = '\r' ∨ c = ' ' ∨ c = '\t' then
        parseLoop R C rest st
      else if c.isDigit then
        match digitCase R C c { st with lex := .digit } with
        | .error e => .err e false
        | .ok st' => parseLoop R C rest st'
      else
        .diverge

/-- Initial loop state (layout.c lines 86-91). -/
def initSt : LoopSt := ⟨0, 0, 0, .ws, [], []⟩

/-- `bl_parse_layout_file` on the contents of the file (the
`fopen`-failure path, which never reaches the loop, is not modelled). -/
def bl_parse_layout_file (R C : Nat) (input : List Char) : POutcome :=
  parseLoop R C input initSt

/-- The words written by `bl_layout_convert` (layout.c lines 26-43):
a buffer of `1 + nlayers * NUMCOLS * NUMROWS` 16-bit words is allocated
(all `none`, i.e. uninitialised), word 0 is set to `nlayers`, and then the
loop stores cell `(layer,row,col)` at word index
`layer*NUMROWS*NUMCOLS + row*NUMCOLS + col` — the inner declaration of `n`
shadows the outer one, so the cell stores start at word 0, not word 1.
A read of an uninitialised matrix cell propagates `none`. -/
def convertWords (R C : Nat) (nlayers : Nat)
    (cell : Nat → Nat → Nat → Option Nat) : List (Option Nat) :=
  let buf := (List.replicate (1 + nlayers * C * R) (none : Option Nat)).set 0
    (some (nlayers % 65536))
  (List.range nlayers).foldl (fun buf layer =>
    (List.range R).foldl (fun buf row =>
      (List.range C).foldl (fun buf col =>
        buf.set (layer * R * C + row * C + col)
          ((cell layer row col).map (fun v => v % 65536))) buf) buf) buf

/-- Split a list of 16-bit words into bytes, little endian; an
uninitialised word yields two uninitialised bytes. -/
def wordsToBytes : List (Option Nat) → List (Option Nat)
  | [] => []
  | none :: ws => none :: none :: wordsToBytes ws
  | some w :: ws => some (w % 256) :: some (w / 256) :: wordsToBytes ws

/-- `bl_layout_convert` applied to a parsed layout: the byte array it
returns, with `none` for bytes left uninitialised by the function. -/
def bl_layout_convert (R C : Nat) (l : Layout) : List (Option Nat) :=
  wordsToBytes (convertWords R C l.nlayers l.cell?)

/-- Reading the layer count back from an encoded buffer, per the wire
format the spec states: bytes `[0,2)` as a little-endian u16. -/
def decodeLayerCount (bytes : List (Option Nat)) : Option Nat :=
  match bytes.get? 0, bytes.get? 1 with
  | some (some lo), some (some hi) => some (lo + 256 * hi)
  | _, _ => none

/-- Reading cell `(i, j, k)` back from an encoded buffer, per the wire
format the spec states: the 2-byte little-endian group following the
header, groups in layer, row, col order. -/
def decodeCell (R C : Nat) (bytes : List (Option Nat)) (i j k : Nat) :
    Option Nat :=
  let idx := 2 * (1 + i * R * C + j * C + k)
  match bytes.get? idx, bytes.get? (idx + 1) with
  | some (some lo), some (some hi) => some (lo + 256 * hi)
  | _, _ => none

/-- The loop state together with the remaining input, for the fuel-indexed
model of the `while (!feof(f))` loop. -/
structure FState where
  st : LoopSt
  input : List Char
deriving DecidableEq, Repr

/-- What one iteration of the C loop body does: continue with a (possibly
unchanged) state, leave the loop because `feof` is set, or take an error
exit. -/
inductive StepRes where
  | next (s : FState)
  | exitLoop (s : FState)
  | fail (e : ParseError)
deriving DecidableEq, Repr

/-- One iteration of the loop of `bl_parse_layout_file`, literally: the
whitespace-state branch for a character that is neither whitespace nor a
digit (layout.c lines 146-148) prints a message but contains no `fgetc`
and changes no state, so it yields `.next` with the state unchanged. -/
def stepF (R C : Nat) (s : FState) : StepRes :=
  match s.input with
  | [] => .exitLoop s
  | c :: rest =>
    match s.st.lex with
    | .digit =>
      match digitCase R C c s.st with
      | .error e => .fail e
      | .ok st' => .next ⟨st', rest⟩
    | .ws =>
      if c = '\n' ∨ c = '\r' ∨ c = ' ' ∨ c = '\t' then .next ⟨s.st, rest⟩
      else if c.isDigit then .next ⟨{ s.st with lex := .digit }, c :: rest⟩
      else .next s

/-- Run the loop for at most `fuel` iterations; `none` means the loop was
still running when the fuel ran out. -/
def runF (R C : Nat) : Nat → FState → Option POutcome
  | 0, _ => none
  | fuel + 1, s =>
    match stepF R C s with
    | .fail e => some (.err e false)
    | .exitLoop s' => some (parseEpilogue R C s'.st)
    | .next s' => runF R C fuel s'

/-- Result of the end-to-end `bl_layout_write` flow (layout.c lines
198-206). -/
inductive WriteFlowResult where
  /-- The encoded bytes and the layer count handed to
  `bl_usb_write_layout`. -/
  | sent (data : List (Option Nat)) (nlayers : Nat)
  /-- `bl_parse_layout_file` returned NULL and `bl_layout_convert` was
  invoked on it anyway: `layout->nlayers` dereferences a null pointer. -/
  | convertCalledOnNull
  /-- The parse never returned. -/
  | hang
deriving DecidableEq, Repr

/-- `bl_layout_write`: parse the file, then call `bl_layout_convert` and
`bl_usb_write_layout` on the result.  The C code performs no check on the
result of `bl_parse_layout_file`, so a failed parse flows straight into
`bl_layout_convert(NULL)` and `layout->nlayers`. -/
def bl_layout_write (R C : Nat) (input : List Char) : WriteFlowResult :=
  match bl_parse_layout_file R C input with
  | .ok l _ => .sent (bl_layout_convert R C l) l.nlayers
  | .err _ _ => .convertCalledOnNull
  | .diverge => .hang

/-- The decimal digit characters of `n`, most significant first (`"0"` for
0): the spelling of a key in a layout file. -/
def natDigits (n : Nat) : List Char :=
  if h : n < 10 then [Char.ofNat (48 + n)]
  else natDigits (n / 10) ++ [Char.ofNat (48 + n % 10)]
termination_by n
decreasing_by exact Nat.div_lt_self (by omega) (by omega)

/-- One layer in the textual form the parser's own grammar comment
describes (layout.c lines 71-82): all keys of the layer on one line,
comma-separated, the line terminated by a line break. -/
def keysText : List Nat → List Char
  | [] => []
  | [v] => natDigits v ++ ['\n']
  | v :: w :: vs => natDigits v ++ ',' :: keysText (w :: vs)

/-- A whole layout file: one line per layer. -/
def layersText : List (List Nat) → List Char
  | [] => []
  | l :: ls => keysText l ++ layersText ls

/-- The matrix stores the parser performs for the keys of one layer, in
chronological order, starting at position `(r, c)`: one store per key, the
position advancing one column per key and wrapping to column 0 of the next
row after column `C - 1`. -/
def keysWrites (C : Nat) (layer r c : Nat) :
    List Nat → List ((Nat × Nat × Nat) × Nat)
  | [] => []
  | v :: vs =>
    ((layer, r, c), v) ::
      (if c = C - 1 then keysWrites C layer (r + 1) 0 vs
       else keysWrites C layer r (c + 1) vs)

/-- The matrix stores for a list of layers starting at layer index `i`,
in chronological order. -/
def layersWrites (C : Nat) (i : Nat) :
    List (List Nat) → List ((Nat × Nat × Nat) × Nat)
  | [] => []
  | l :: ls => keysWrites C i 0 0 l ++ layersWrites C (i + 1) ls

/-- A layout file with `n + 1` complete layers for a 2-row, 3-column
matrix: one more layer than any given bound `n`. -/
def overflowInput (n : Nat) : List Char :=
  layersText (List.replicate (n + 1) [1, 2, 3, 4, 5, 6])

/-- The layout produced by parsing `"7,8,9,10,11,12\n"` with
`NUMROWS = 2`, `NUMCOLS = 3` (stores listed most recent first). -/
def layoutC1 : Layout :=
  ⟨1, [((0, 1, 2), 12), ((0, 1, 1), 11), ((0, 1, 0), 10),
       ((0, 0, 2), 9), ((0, 0, 1), 8), ((0, 0, 0), 7)]⟩

/-- The layout produced by parsing `"1,2,3,4,5,6"` (no trailing line
break) with `NUMROWS = 2`, `NUMCOLS = 3`. -/
def layoutC6 : Layout :=
  ⟨0, [((0, 1, 2), 6), ((0, 1, 1), 5), ((0, 1, 0), 4),
       ((0, 0, 2), 3), ((0, 0, 1), 2), ((0, 0, 0), 1)]⟩

/-- The layout produced by parsing `"5,6,7,8,9,10\n"` with
`NUMROWS = 2`, `NUMCOLS = 3`. -/
def layoutC7 : Layout :=
  ⟨1, [((0, 1, 2), 10), ((0, 1, 1), 9), ((0, 1, 0), 8),
       ((0, 0, 2), 7), ((0, 0, 1), 6), ((0, 0, 0), 5)]⟩

/-- The layout produced by parsing `"1,2,3,4,5,6,7,8,9,10,11,12,"` with
`NUMROWS = 2`, `NUMCOLS = 3`: the trailing commas drive the row counter
past `NUMROWS - 1`, so stores happen at row indices 2 and 3. -/
def layoutC10 : Layout :=
  ⟨0, [((0, 3, 2), 12), ((0, 3, 1), 11), ((0, 3, 0), 10),
       ((0, 2, 2), 9), ((0, 2, 1), 8), ((0, 2, 0), 7),
       ((0, 1, 2), 6), ((0, 1, 1), 5), ((0, 1, 0), 4),
       ((0, 0, 2), 3), ((0, 0, 1), 2), ((0, 0, 0), 1)]⟩

/-- Claim C1: the claim says `bl_layout_convert` returns
`2 + 2 * L * NUM_ROWS * NUM_COLS` bytes with bytes `[0,2)` holding the
layer count and the cells following from byte 2.  The code allocates that
many bytes, but the inner shadowed index makes the cell stores start at
byte 0: for the matrix parsed from `"7,8,9,10,11,12\n"` (`NUMROWS = 2`,
`NUMCOLS = 3`, one layer) the buffer starts with the first cell `07 00`
instead of the layer count `01 00`, and its final two bytes are never
written; reading bytes `[0,2)` back does not give the layer count. -/
theorem convert_overwrites_header :
    bl_parse_layout_file 2 3 ("7,8,9,10,11,12\n".toList) = .ok layoutC1 true ∧
    (bl_layout_convert 2 3 layoutC1).length = 2 + 2 * 1 * 2 * 3 ∧
    bl_layout_convert 2 3 layoutC1 =
      [some 7, some 0, some 8, some 0, some 9, some 0, some 10, some 0,
       some 11, some 0, some 12, some 0, none, none] ∧
    decodeLayerCount (bl_layout_convert 2 3 layoutC1) ≠ some layoutC1.nlayers := by
  decide

/-- Claim C2 (counterexample): the claim says `"1,2,3\n4,5,6\n"` with
`NUM_ROWS = 2`, `NUM_COLS = 3` parses successfully; in the code a line
break terminates a whole layer, so this parse returns no layout at all. -/
theorem scenario_input_rejected :
    (bl_parse_layout_file 2 3 ("1,2,3\n4,5,6\n".toList)).isOk = false := by
  decide

/-- Claim C2 (amended): with `NUM_ROWS = 2` and `NUM_COLS = 3`, parsing
`"1,2,3\n4,5,6\n"` fails at the first line break with the
invalid-number-of-rows error (`MalformedLayer`): a line break must
terminate a complete layer and only one of the two rows had been filled.
The error path returns without closing the stream, so nothing is
encoded. -/
theorem scenario_input_malformed_layer :
    bl_parse_layout_file 2 3 ("1,2,3\n4,5,6\n".toList) =
      .err .malformedLayer false := by
  decide

/-- Claim C3 (counterexample): an input that is valid for the claim's
grammar — one layer of `NUM_ROWS = 2` rows, each row `NUM_COLS = 2`
comma-separated integers terminated by a line break — is rejected by the
parser, because in the code a line break terminates a layer, not a row. -/
theorem row_per_line_input_rejected :
    (bl_parse_layout_file 2 2 ("1,2\n3,4\n".toList)).isOk = false := by
  decide

/-- Claim C4: the claim says the parser terminates on every finite input.
On the one-character input `"x"` the loop is in the whitespace state on a
character that is neither whitespace nor a digit; that branch (layout.c
lines 146-148) consumes nothing and changes nothing, so no amount of fuel
makes the loop finish: the C loop runs forever. -/
theorem parse_x_never_terminates (fuel : Nat) :
    runF 2 3 fuel ⟨initSt, "x".toList⟩ = none := by
  induction fuel with
  | zero => rfl
  | succ n ih =>
    have h : stepF 2 3 ⟨initSt, "x".toList⟩ = .next ⟨initSt, "x".toList⟩ := by
      decide
    rw [runF, h]
    exact ih

/-- Claim C6: the claim says a final cell committed at end of source
completes its layer and that layer is counted.  Parsing
`"1,2,3,4,5,6"` (`NUMROWS = 2`, `NUMCOLS = 3`, no trailing line break)
does commit the last cell `(0,1,2) := 6`, but `nlayers` is set to the
`layer` counter, which only line breaks increment: the returned layer
count is 0, not 1, and the completed layer would not be serialized. -/
theorem trailing_layer_not_counted :
    bl_parse_layout_file 2 3 ("1,2,3,4,5,6".toList) = .ok layoutC6 true ∧
    layoutC6.nlayers = 0 := by
  decide

/-- Claim C7: the claim says decoding the encoded buffer reconstructs the
original matrix.  For the matrix parsed from `"5,6,7,8,9,10\n"`
(`NUMROWS = 2`, `NUMCOLS = 3`, one layer), the encoded buffer's bytes
`[0,2)` decode to 5 — the first cell, which overwrote the header — not to
the original layer count 1, and the first cell group after the header
decodes to 6, not to the original first cell 5. -/
theorem roundtrip_layer_count_wrong :
    bl_parse_layout_file 2 3 ("5,6,7,8,9,10\n".toList) = .ok layoutC7 true ∧
    layoutC7.nlayers = 1 ∧
    decodeLayerCount (bl_layout_convert 2 3 layoutC7) = some 5 ∧
    decodeLayerCount (bl_layout_convert 2 3 layoutC7) ≠ some layoutC7.nlayers ∧
    layoutC7.cell? 0 0 0 = some 5 ∧
    decodeCell 2 3 (bl_layout_convert 2 3 layoutC7) 0 0 0 = some 6 := by
  decide

/-- Claim C8: the claim says the input stream is released on every exit
path.  On input `"1\n"` (`NUMROWS = 2`, `NUMCOLS = 3`) the parser takes
the invalid-number-of-keys error exit (layout.c lines 120-124), which
frees the layout and returns without calling `fclose`: the stream is
leaked (`closed = false`).  The same holds for the buffer-overflow and
unexpected-character exits. -/
theorem error_path_leaks_stream :
    bl_parse_layout_file 2 3 ("1\n".toList) = .err .malformedRow false := by
  decide

/-- Claim C9: the claim says the write flow never invokes the encoder on
a failed parse.  `bl_layout_write` (layout.c lines 198-206) performs no
check on the result of `bl_parse_layout_file`: on a file containing
`"1\n"` the parse fails, yet `bl_layout_convert` is called on the NULL
result and `layout->nlayers` is dereferenced. -/
theorem write_flow_convert_on_failed_parse :
    (bl_parse_layout_file 2 3 ("1\n".toList)).isOk = false ∧
    bl_layout_write 2 3 ("1\n".toList) = .convertCalledOnNull := by
  decide

/-- Claim C10: the claim says every matrix store happens at
`row < NUM_ROWS` and `col < NUM_COLS`.  Parsing
`"1,2,3,4,5,6,7,8,9,10,11,12,"` (`NUMROWS = 2`, `NUMCOLS = 3`) succeeds,
and because a comma after the last key of a layer keeps incrementing the
row counter, the parse stores cell 7 at `(layer 0, row 2, col 0)` — row
index 2 is not `< NUMROWS = 2`, an out-of-bounds write in the C code. -/
theorem store_at_row_numrows :
    bl_parse_layout_file 2 3 ("1,2,3,4,5,6,7,8,9,10,11,12,".toList) =
      .ok layoutC10 true ∧
    ((0, 2, 0), 7) ∈ layoutC10.writes ∧
    ¬((2 : Nat) < 2) := by
  decide

lemma digitChar_facts : ∀ d : Nat, d < 10 →
    (Char.ofNat (48 + d)).isDigit = true ∧ (Char.ofNat (48 + d)).toNat = 48 + d := by
  decide

lemma isDigit_not_wschar (ch : Char) (h : ch.isDigit = true) :
    ¬(ch = '\n' ∨ ch = '\r' ∨ ch = ' ' ∨ ch = '\t') := by
  rintro (rfl | rfl | rfl | rfl) <;> exact absurd h (by decide)

lemma natDigits_isDigit : ∀ (n : Nat), ∀ c ∈ natDigits n, c.isDigit = true := by
  intro n
  induction n using Nat.strong_induction_on with
  | _ n ih =>
    rw [natDigits]
    split
    · rename_i h
      intro c hc
      simp only [List.mem_singleton] at hc
      subst hc
      exact (digitChar_facts n h).1
    · rename_i h
      intro c hc
      rw [List.mem_append] at hc
      rcases hc with hc | hc
      · exact ih (n / 10) (Nat.div_lt_self (by omega) (by omega)) c hc
      · simp only [List.mem_singleton] at hc
        subst hc
        exact (digitChar_facts (n % 10) (Nat.mod_lt _ (by omega))).1

lemma natDigits_ne_nil (n : Nat) : natDigits n ≠ [] := by
  rw [natDigits]
  split <;> simp

lemma bufVal_append_char (buf : List Char) (c : Char) :
    bufVal (buf ++ [c]) = bufVal buf * 10 + (c.toNat - 48) := by
  simp [bufVal, List.foldl_append]

lemma bufVal_natDigits : ∀ n : Nat, bufVal (natDigits n) = n := by
  intro n
  induction n using Nat.strong_induction_on with
  | _ n ih =>
    rw [natDigits]
    split
    · rename_i h
      have h2 := (digitChar_facts n h).2
      simp [bufVal, h2]
    · rename_i h
      rw [bufVal_append_char, ih (n / 10) (Nat.div_lt_self (by omega) (by omega)),
        (digitChar_facts (n % 10) (Nat.mod_lt _ (by omega))).2]
      omega

lemma natDigits_length_le : ∀ (k n : Nat), n < 10 ^ (k + 1) →
    (natDigits n).length ≤ k + 1 := by
  intro k
  induction k with
  | zero =>
    intro n hn
    rw [natDigits]
    split
    · simp
    · omega
  | succ k ih =>
    intro n hn
    rw [natDigits]
    split
    · simp
    · rename_i h
      have hdiv : n / 10 < 10 ^ (k + 1) := by
        apply Nat.div_lt_of_lt_mul
        calc n < 10 ^ (k + 2) := hn
        _ = 10 * 10 ^ (k + 1) := by ring
      have := ih (n / 10) hdiv
      simp only [List.length_append, List.length_singleton]
      omega

lemma parseLoop_digits (R C : Nat) :
    ∀ (ds : List Char), (∀ c ∈ ds, c.isDigit = true) →
    ∀ (L r c : Nat) (buf : List Char) (W : List ((Nat × Nat × Nat) × Nat))
      (rest : List Char),
    buf.length + ds.length ≤ 19 →
    parseLoop R C (ds ++ rest) ⟨L, r, c, .digit, buf, W⟩ =
    parseLoop R C rest ⟨L, r, c, .digit, buf ++ ds, W⟩ := by
  intro ds
  induction ds with
  | nil =>
    intro _ L r c buf W rest _
    simp
  | cons d ds ih =>
    intro hds L r c buf W rest hlen
    have hd : d.isDigit = true := hds d (List.mem_cons_self _ _)
    have hngt : ¬(19 ≤ buf.length) := by
      simp only [List.length_cons] at hlen
      omega
    simp only [List.cons_append, parseLoop, digitCase, hd, if_true]
    rw [if_neg hngt]
    show parseLoop R C (ds ++ rest) ⟨L, r, c, .digit, buf ++ [d], W⟩ = _
    rw [ih (fun c hc => hds c (List.mem_cons_of_mem _ hc)) L r c (buf ++ [d]) W rest
      (by simp only [List.length_append, List.length_cons, List.length_nil] at hlen ⊢; omega)]
    simp

lemma digitCase_comma (R C L r c : Nat) (buf : List Char)
    (W : List ((Nat × Nat × Nat) × Nat)) :
    digitCase R C ',' ⟨L, r, c, .digit, buf, W⟩ =
      (if c = C - 1 then
        .ok ⟨L, r + 1, 0, .ws, [], ((L, r, c), bufVal buf % 65536) :: W⟩
      else
        .ok ⟨L, r, c + 1, .ws, [], ((L, r, c), bufVal buf % 65536) :: W⟩) := by
  simp only [digitCase]
  rw [if_neg (show ¬((',').isDigit = true) by decide)]
  simp

lemma digitCase_newline (R C L r c : Nat) (buf : List Char)
    (W : List ((Nat × Nat × Nat) × Nat)) :
    digitCase R C '\n' ⟨L, r, c, .digit, buf, W⟩ =
      (if c < C - 1 then .error .malformedRow
       else if r < R - 1 then .error .malformedLayer
       else .ok ⟨L + 1, 0, 0, .ws, [], ((L, r, c), bufVal buf % 65536) :: W⟩) := by
  simp only [digitCase]
  rw [if_neg (show ¬(('\n').isDigit = true) by decide)]
  rw [if_neg (show ¬('\n' = ',') by decide)]
  simp

lemma parseLoop_key (R C : Nat) (v : Nat) (hv : v < 65536) (L r c : Nat)
    (W : List ((Nat × Nat × Nat) × Nat)) (rest : List Char) :
    parseLoop R C (natDigits v ++ rest) ⟨L, r, c, .ws, [], W⟩ =
    parseLoop R C rest ⟨L, r, c, .digit, natDigits v, W⟩ := by
  have hALL : ∀ ch ∈ natDigits v, ch.isDigit = true := natDigits_isDigit v
  have hlen : (natDigits v).length ≤ 5 := natDigits_length_le 4 v (by omega)
  cases h : natDigits v with
  | nil => exact absurd h (natDigits_ne_nil v)
  | cons d ds =>
    rw [h] at hALL hlen
    have hd : d.isDigit = true := hALL d (List.mem_cons_self _ _)
    have hnws := isDigit_not_wschar d hd
    simp only [List.cons_append, parseLoop]
    rw [if_neg hnws, if_pos hd]
    simp only [digitCase, hd, if_true]
    rw [if_neg (show ¬(19 ≤ ([] : List Char).length) by simp)]
    show parseLoop R C (ds ++ rest) ⟨L, r, c, .digit, [] ++ [d], W⟩ = _
    rw [parseLoop_digits R C ds (fun ch hc => hALL ch (List.mem_cons_of_mem _ hc))
      L r c ([] ++ [d]) W rest
      (by simp only [List.nil_append, List.length_singleton, List.length_cons, List.length_nil] at hlen ⊢
          omega)]
    simp

lemma parseLoop_keys (R C : Nat) (hC : 1 ≤ C) :
    ∀ (vs : List Nat) (L r c : Nat) (W : List ((Nat × Nat × Nat) × Nat))
      (rest : List Char),
    c < C → r < R →
    (R - 1 - r) * C + (C - 1 - c) + 1 = vs.length →
    (∀ v ∈ vs, v < 65536) →
    parseLoop R C (keysText vs ++ rest) ⟨L, r, c, .ws, [], W⟩ =
    parseLoop R C rest ⟨L + 1, 0, 0, .ws, [], (keysWrites C L r c vs).reverse ++ W⟩ := by
  intro vs
  induction vs with
  | nil =>
    intro L r c W rest hc hr hcount hval
    simp only [List.length_nil] at hcount
    omega
  | cons v vs ih =>
    intro L r c W rest hc hr hcount hval
    have hv : v < 65536 := hval v (List.mem_cons_self _ _)
    simp only [List.length_cons] at hcount
    cases vs with
    | nil =>
      have hQ : C - 1 - c = 0 ∧ (R - 1 - r) * C = 0 := by
        simp only [List.length_nil] at hcount
        generalize hP : (R - 1 - r) * C = P at hcount
        omega
      have hcol : c = C - 1 := by omega
      have hrow : r = R - 1 := by
        rcases Nat.mul_eq_zero.mp hQ.2 with h0 | h0 <;> omega
      show parseLoop R C ((natDigits v ++ ['\n']) ++ rest) _ = _
      rw [List.append_assoc, parseLoop_key R C v hv]
      simp only [List.singleton_append, parseLoop]
      rw [digitCase_newline]
      rw [if_neg (show ¬(c < C - 1) by omega)]
      rw [if_neg (show ¬(r < R - 1) by omega)]
      rw [bufVal_natDigits, Nat.mod_eq_of_lt hv]
      show parseLoop R C rest ⟨L + 1, 0, 0, .ws, [], ((L, r, c), v) :: W⟩ = _
      simp [keysWrites]
    | cons w vs' =>
      show parseLoop R C ((natDigits v ++ ',' :: keysText (w :: vs')) ++ rest) _ = _
      rw [List.append_assoc, parseLoop_key R C v hv]
      simp only [List.cons_append, parseLoop]
      rw [digitCase_comma, bufVal_natDigits, Nat.mod_eq_of_lt hv]
      simp only [List.length_cons] at hcount
      by_cases hcc : c = C - 1
      · rw [if_pos hcc]
        show parseLoop R C (keysText (w :: vs') ++ rest)
          ⟨L, r + 1, 0, .ws, [], ((L, r, c), v) :: W⟩ = _
        have hr1 : 1 ≤ R - 1 - r := by
          by_contra hcon
          have h0 : R - 1 - r = 0 := by omega
          rw [h0, Nat.zero_mul] at hcount
          omega
        have e1 : R - 1 - r = (R - 1 - (r + 1)) + 1 := by omega
        rw [e1, Nat.succ_mul] at hcount
        rw [ih L (r + 1) 0 (((L, r, c), v) :: W) rest (by omega) (by omega)
          (by simp only [List.length_cons]
              generalize hP : (R - 1 - (r + 1)) * C = P at hcount ⊢
              omega)
          (fun u hu => hval u (List.mem_cons_of_mem _ hu))]
        simp [keysWrites, hcc, List.reverse_cons, List.append_assoc]
      · rw [if_neg hcc]
        show parseLoop R C (keysText (w :: vs') ++ rest)
          ⟨L, r, c + 1, .ws, [], ((L, r, c), v) :: W⟩ = _
        rw [ih L r (c + 1) (((L, r, c), v) :: W) rest (by omega) hr
          (by simp only [List.length_cons]
              generalize hP : (R - 1 - r) * C = P at hcount ⊢
              omega)
          (fun u hu => hval u (List.mem_cons_of_mem _ hu))]
        simp [keysWrites, hcc, List.reverse_cons, List.append_assoc]

lemma parseLoop_layers (R C : Nat) (hR : 1 ≤ R) (hC : 1 ≤ C) :
    ∀ (ls : List (List Nat)) (L : Nat) (W : List ((Nat × Nat × Nat) × Nat))
      (rest : List Char),
    (∀ l ∈ ls, l.length = R * C) →
    (∀ l ∈ ls, ∀ v ∈ l, v < 65536) →
    parseLoop R C (layersText ls ++ rest) ⟨L, 0, 0, .ws, [], W⟩ =
    parseLoop R C rest
      ⟨L + ls.length, 0, 0, .ws, [], (layersWrites C L ls).reverse ++ W⟩ := by
  intro ls
  induction ls with
  | nil =>
    intro L W rest _ _
    simp [layersText, layersWrites]
  | cons l ls ih =>
    intro L W rest hlen hval
    show parseLoop R C ((keysText l ++ layersText ls) ++ rest) _ = _
    rw [List.append_assoc]
    rw [parseLoop_keys R C hC l L 0 0 W (layersText ls ++ rest) (by omega) (by omega)
      (by simp only [Nat.sub_zero]
          rw [hlen l (List.mem_cons_self _ _), Nat.sub_one_mul]
          have hle : C ≤ R * C := Nat.le_mul_of_pos_left C (by omega)
          generalize h : R * C = P at hle ⊢
          omega)
      (hval l (List.mem_cons_self _ _))]
    rw [ih (L + 1) ((keysWrites C L 0 0 l).reverse ++ W) rest
      (fun u hu => hlen u (List.mem_cons_of_mem _ hu))
      (fun u hu => hval u (List.mem_cons_of_mem _ hu))]
    have e3 : L + 1 + ls.length = L + (ls.length + 1) := by omega
    simp only [List.length_cons, layersWrites, List.reverse_append, List.append_assoc, e3]

lemma parse_layersText (R C : Nat) (hR : 1 ≤ R) (hC : 1 ≤ C)
    (ls : List (List Nat))
    (hlen : ∀ l ∈ ls, l.length = R * C)
    (hval : ∀ l ∈ ls, ∀ v ∈ l, v < 65536) :
    bl_parse_layout_file R C (layersText ls) =
      .ok ⟨ls.length, (layersWrites C 0 ls).reverse⟩ true := by
  have h := parseLoop_layers R C hR hC ls 0 [] [] hlen hval
  rw [List.append_nil] at h
  show parseLoop R C (layersText ls) ⟨0, 0, 0, .ws, [], []⟩ = _
  rw [h]
  show parseEpilogue R C _ = _
  simp [parseEpilogue]

lemma mem_layersWrites_replicate (n i : Nat) :
    ((i + n, 0, 0), 1) ∈
      layersWrites 3 i (List.replicate (n + 1) [1, 2, 3, 4, 5, 6]) := by
  induction n generalizing i with
  | zero =>
    simp [layersWrites, keysWrites]
  | succ n ih =>
    rw [List.replicate_succ]
    simp only [layersWrites]
    refine List.mem_append_right _ ?_
    have h := ih (i + 1)
    have e : i + 1 + n = i + (n + 1) := by omega
    rwa [e] at h

/-- Claim C3 (amended): in the code a line break closes a layer, not a row,
so a valid input is one line per layer, each line holding all
`NUM_ROWS * NUM_COLS` keys of the layer comma-separated (16-bit values).
For every such input of `L` layers, parse succeeds, `layer_count = L`, and
the matrix stores are exactly one store per source integer, in
left-to-right source order, at positions advancing column by column and
wrapping row by row — so every cell equals the corresponding source
integer. -/
theorem parse_one_layer_per_line (R C : Nat) (hR : 1 ≤ R) (hC : 1 ≤ C)
    (ls : List (List Nat))
    (hlen : ∀ l ∈ ls, l.length = R * C)
    (hval : ∀ l ∈ ls, ∀ v ∈ l, v < 65536) :
    bl_parse_layout_file R C (layersText ls) =
      .ok ⟨ls.length, (layersWrites C 0 ls).reverse⟩ true :=
  parse_layersText R C hR hC ls hlen hval

/-- Witness for `parse_one_layer_per_line` at `R = 2`, `C = 3` and one
layer `[1, 2, 3, 4, 5, 6]`. -/
theorem parse_one_layer_per_line_witness :
    (1 ≤ 2 ∧ 1 ≤ 3 ∧
      (∀ l ∈ [[1, 2, 3, 4, 5, 6]], List.length l = 2 * 3) ∧
      (∀ l ∈ [[1, 2, 3, 4, 5, 6]], ∀ v ∈ l, v < 65536)) ∧
    bl_parse_layout_file 2 3 (layersText [[1, 2, 3, 4, 5, 6]]) =
      .ok ⟨List.length [[1, 2, 3, 4, 5, 6]],
           (layersWrites 3 0 [[1, 2, 3, 4, 5, 6]]).reverse⟩ true :=
  ⟨⟨by decide, by decide, by decide, by decide⟩,
   parse_one_layer_per_line 2 3 (by decide) (by decide) [[1, 2, 3, 4, 5, 6]]
     (by decide) (by decide)⟩

/-- Claim C5: the claim says a successful parse has
`layer_count ≤ MAX_LAYERS` and never stores a cell at layer index
`MAX_LAYERS`.  The parser has no check at all against the layer bound
(`NUMLAYERS_MAX`, whose value lives in a header outside the sources, is
modelled from the spec as an arbitrary fixed bound): for every possible
bound, the input with one more full layer than the bound parses
successfully with `nlayers = NLMAX + 1 > NLMAX`, and a cell is stored at
layer index `NLMAX` — past the end of the `MAX_LAYERS`-sized array the
parser allocated. -/
theorem layer_bound_unchecked (NLMAX : Nat) :
    bl_parse_layout_file 2 3 (overflowInput NLMAX) =
      .ok ⟨NLMAX + 1,
           (layersWrites 3 0
             (List.replicate (NLMAX + 1) [1, 2, 3, 4, 5, 6])).reverse⟩ true ∧
    ((NLMAX, 0, 0), 1) ∈
      (layersWrites 3 0
        (List.replicate (NLMAX + 1) [1, 2, 3, 4, 5, 6])).reverse := by
  constructor
  · have h := parse_layersText 2 3 (by omega) (by omega)
      (List.replicate (NLMAX + 1) [1, 2, 3, 4, 5, 6])
      (fun l hl => by rw [List.eq_of_mem_replicate hl]; decide)
      (fun l hl => by rw [List.eq_of_mem_replicate hl]; decide)
    rw [overflowInput]
    simpa [List.length_replicate] using h
  · rw [List.mem_reverse]
    have h := mem_layersWrites_replicate NLMAX 0
    simpa using h
